import Mathlib

/-!
Shallow embedding of the `ShoppingCart` class (session-storage-backed
shopping cart with observer notification and Shopify checkout URL
generation), together with proofs about its operations.

Modelling conventions:
* JavaScript numbers are modelled as `Int`; every number the cart
  manipulates in the behaviours under study (quantities changed by ±1 from
  0, caller-supplied prices) is integral.
* The `items` object is modelled as its list of own properties in
  property-creation (insertion) order; `jsEntries` derives the ECMAScript
  iteration order from it (array-index keys first, ascending, then the
  rest in creation order), which `Object.values` / `Object.entries` /
  `Object.keys` / spread / `JSON.stringify` all follow.
* Side effects of a method call (the `setItem` attempt, the observer
  invocations) are returned as an explicit trace of `Event`s.
-/

namespace Kanom

/-- Line item record stored per variant id: `{ quantity, price }`. -/
structure LineItem where
  quantity : Int
  price : Int
  deriving Repr, DecidableEq

/-- Cart `items` object, as the ordered list of its own properties in
property-creation (insertion) order. -/
abbrev Items := List (String × LineItem)

/-- Property read `obj[k]`: the entry with the given key (a JS object has
at most one property per key; duplicates never arise, but on a list with
duplicate keys this returns the first). -/
def getEntry {κ α : Type} [DecidableEq κ] : List (κ × α) → κ → Option α
  | [], _ => none
  | (k, v) :: rest, key => if k = key then some v else getEntry rest key

/-- Property update `obj[k] = f(obj[k])` on an existing key. -/
def mapEntry {κ α : Type} [DecidableEq κ] (l : List (κ × α)) (key : κ) (f : α → α) :
    List (κ × α) :=
  l.map fun e => if e.1 = key then (e.1, f e.2) else e

/-- Property deletion `delete obj[k]`. -/
def delEntry {κ α : Type} [DecidableEq κ] (l : List (κ × α)) (key : κ) : List (κ × α) :=
  l.filter fun e => e.1 ≠ key

/-- Numeric value of a string of decimal digits. -/
def digitsToNat (s : String) : Nat :=
  s.data.foldl (fun n c => n * 10 + (c.toNat - 48)) 0

/-- ECMAScript array-index property key: a canonical digit string (no
leading zero except `"0"` itself) whose numeric value is below `2^32 - 1`.
Object iteration lists such keys first, in ascending numeric order; all
other string keys follow in property-creation order. -/
def isArrayIndex (s : String) : Bool :=
  s.data.length > 0 && s.data.all Char.isDigit
    && (s == "0" || decide (s.data.headD '0' ≠ '0')) && digitsToNat s < 2 ^ 32 - 1

/-- Ordering of array-index keys by numeric value. -/
def idxLe {α : Type} (a b : String × α) : Prop := digitsToNat a.1 ≤ digitsToNat b.1

instance {α : Type} : DecidableRel (idxLe (α := α)) := fun _ _ => Nat.decLe _ _

instance {α : Type} : IsTotal (String × α) idxLe := ⟨fun _ _ => Nat.le_total _ _⟩

instance {α : Type} : IsTrans (String × α) idxLe := ⟨fun _ _ _ => Nat.le_trans⟩

/-- Iteration order of a JS object's own properties
(`OrdinaryOwnPropertyKeys`): array-index keys ascending by numeric value,
then the remaining keys in property-creation order.  The argument is the
property list in creation order. -/
def jsEntries {α : Type} (l : List (String × α)) : List (String × α) :=
  List.insertionSort idxLe (l.filter fun e => isArrayIndex e.1)
    ++ l.filter fun e => !isArrayIndex e.1

/-- Mutable state of a `ShoppingCart` instance: its `items` property.
`storageKey` is the fixed constant below; the observer set lives in `Env`
because no cart method changes it. -/
structure Cart where
  items : Items
  deriving Repr, DecidableEq

/-- Notification payload `cartData` built by `notifyObservers`:
`{ items: { ...this.items }, totalQuantity, totalPrice }`.  The spread
copy enumerates the source's properties in JS iteration order. -/
structure Snapshot where
  items : Items
  totalQuantity : Int
  totalPrice : Int
  deriving Repr, DecidableEq

/-- Ambient world a cart method call runs in: whether
`sessionStorage.setItem` succeeds, and the subscribed observers
(`this.observers`, a JS `Set`, iterated in insertion = subscription
order).  An observer is modelled by an identity tag plus a predicate
telling whether its body throws on a given snapshot; the cart never
consults an observer's return value. -/
structure Env where
  saveOk : Bool
  observers : List (Nat × (Snapshot → Bool))

/-- JSON values, for the `JSON.stringify` / `JSON.parse` round trip
through `sessionStorage`. -/
inductive JValue where
  | null
  | bool (b : Bool)
  | num (n : Int)
  | str (s : String)
  | arr (elts : List JValue)
  | obj (fields : List (String × JValue))

/-- Observable side effects of one cart method call, in order: each
`setItem` attempt (serialised payload, and whether the write succeeded
rather than throwing) and each observer invocation (tag, snapshot passed,
whether the observer's body threw — the `try`/`catch` in
`notifyObservers` swallows the throw). -/
inductive Event where
  | save (payload : JValue) (ok : Bool)
  | invoke (tag : Nat) (snap : Snapshot) (threw : Bool)

/-- Fixed session-storage key of the cart. -/
def storageKey : String := "ploys-kanom-buns-cart"

/-- Source `getItemQuantity(variantId)`:
`this.items[variantId]?.quantity || 0`. -/
def getItemQuantity (c : Cart) (variantId : String) : Int :=
  match getEntry c.items variantId with
  | some it => if it.quantity = 0 then 0 else it.quantity
  | none => 0

/-- Source `getTotalQuantity()`:
`Object.values(this.items).reduce((total, item) => total + item.quantity, 0)`. -/
def getTotalQuantity (c : Cart) : Int :=
  (jsEntries c.items).foldl (fun total e => total + e.2.quantity) 0

/-- Source `getTotalPrice()`:
`reduce((total, item) => total + item.quantity * (item.price || 0), 0)`. -/
def getTotalPrice (c : Cart) : Int :=
  (jsEntries c.items).foldl
    (fun total e => total + e.2.quantity * (if e.2.price = 0 then 0 else e.2.price)) 0

/-- Source `getAllItems()`: `{ ...this.items }` — a new object whose
properties are copied in the source object's iteration order.  This is a
shallow copy; the reference-level model further below captures the sharing
of the nested records. -/
def getAllItems (c : Cart) : Items := jsEntries c.items

/-- Source `isEmpty()`: `Object.keys(this.items).length === 0`. -/
def isEmpty (c : Cart) : Bool := (jsEntries c.items).length == 0

/-- Base URL of the external checkout. -/
def checkoutBase : String := "https://ployskanombuns.myshopify.com/cart"

/-- Source `getCheckoutUrl()`: bare base URL when empty, otherwise the
base URL with a path segment of comma-joined `variantId:quantity` pairs in
`Object.entries` order. -/
def getCheckoutUrl (c : Cart) : String :=
  if isEmpty c then checkoutBase
  else
    checkoutBase ++ "/" ++
      String.intercalate ","
        ((jsEntries c.items).map fun e => e.1 ++ ":" ++ toString e.2.quantity)

/-- The `cartData` object built at the start of `notifyObservers`. -/
def snapshot (c : Cart) : Snapshot :=
  ⟨jsEntries c.items, getTotalQuantity c, getTotalPrice c⟩

/-- Source `notifyObservers()`: builds `cartData` once, then
`this.observers.forEach` calls each observer with it inside a
`try`/`catch` that logs and swallows any throw, so every observer runs and
nothing propagates to the caller. -/
def notifyObservers (env : Env) (c : Cart) : List Event :=
  env.observers.map fun ob => .invoke ob.1 (snapshot c) (ob.2 (snapshot c))

/-- Serialisation of one line item by `JSON.stringify`. -/
def jsonOfLineItem (it : LineItem) : JValue :=
  .obj [("quantity", .num it.quantity), ("price", .num it.price)]

/-- Serialisation `JSON.stringify(this.items)` at the JSON-value level;
`stringify` enumerates own properties in JS iteration order. -/
def jsonOfItems (l : Items) : JValue :=
  .obj ((jsEntries l).map fun e => (e.1, jsonOfLineItem e.2))

/-- Source `saveToStorage()`: one `setItem` attempt with the serialised
state; a throw (storage disabled, quota exceeded) is caught and only
logged. -/
def saveToStorage (env : Env) (c : Cart) : Event :=
  .save (jsonOfItems c.items) env.saveOk

/-- What `sessionStorage.getItem(storageKey)` followed by `JSON.parse`
can produce at construction time: the read itself may throw (storage
disabled), the key may be absent (`getItem` returns `null`), the stored
text may fail to parse, or it parses to a JSON value. -/
inductive ReadOutcome where
  | readThrew
  | absent
  | parseThrew
  | parsed (j : JValue)

/-- Numeric JSON field, defaulting to 0. -/
def jnumOr0 : Option JValue → Int
  | some (.num n) => n
  | _ => 0

/-- Reading a parsed line item back (its `quantity` and `price` fields).
`saveToStorage` only ever writes values of the shape produced by
`jsonOfLineItem`; values outside that range are not reachable through the
class and the decoder defaults their numeric fields to 0. -/
def lineItemOfJson : JValue → LineItem
  | .obj fields => ⟨jnumOr0 (getEntry fields "quantity"), jnumOr0 (getEntry fields "price")⟩
  | _ => ⟨0, 0⟩

/-- Cart items recovered from a parsed JSON value; `JSON.parse` re-creates
the object's properties in the serialised text's order.  Non-object values
are not reachable through the class and decode to the empty mapping. -/
def itemsOfJson : JValue → Items
  | .obj fields => fields.map fun f => (f.1, lineItemOfJson f.2)
  | _ => []

/-- Source `loadFromStorage()`: any throw from the read or the parse is
caught, logged, and yields `{}`; an absent key (`null`) also yields `{}`. -/
def loadFromStorage : ReadOutcome → Items
  | .readThrew => []
  | .absent => []
  | .parseThrew => []
  | .parsed j => itemsOfJson j

/-- The constructor: `this.items = this.loadFromStorage()`. -/
def mkCart (r : ReadOutcome) : Cart := ⟨loadFromStorage r⟩

/-- Source `addItem(variantId, price = 0)`.  `!variantId` is true for a
string argument exactly when it is empty.  Returns the thrown error or the
new quantity, the updated cart, and the trace of effects (the save
attempt, then the observer invocations). -/
def addItem (env : Env) (c : Cart) (variantId : String) (price : Int := 0) :
    Except String Int × Cart × List Event :=
  if variantId = "" then
    (.error "Variant ID is required", c, [])
  else
    let items0 :=
      match getEntry c.items variantId with
      | some _ => c.items
      | none => c.items ++ [(variantId, ⟨0, price⟩)]
    let items1 := mapEntry items0 variantId fun it => { it with quantity := it.quantity + 1 }
    let items2 :=
      if price > 0 then mapEntry items1 variantId fun it => { it with price := price }
      else items1
    let c' : Cart := ⟨items2⟩
    (.ok (match getEntry items2 variantId with | some it => it.quantity | none => 0),
      c', saveToStorage env c' :: notifyObservers env c')

/-- Source `removeItem(variantId)`: returns 0 untouched when the id is
falsy or absent; otherwise decrements, deletes the entry when the new
quantity is ≤ 0, and persists and notifies. -/
def removeItem (env : Env) (c : Cart) (variantId : String) :
    Int × Cart × List Event :=
  if variantId = "" then (0, c, [])
  else
    match getEntry c.items variantId with
    | none => (0, c, [])
    | some _ =>
      let items1 := mapEntry c.items variantId fun it => { it with quantity := it.quantity - 1 }
      match getEntry items1 variantId with
      | some it =>
        if it.quantity ≤ 0 then
          let c' : Cart := ⟨delEntry items1 variantId⟩
          (0, c', saveToStorage env c' :: notifyObservers env c')
        else
          let c' : Cart := ⟨items1⟩
          (it.quantity, c', saveToStorage env c' :: notifyObservers env c')
      | none => (0, c, [])

/-- Source `clearCart()`: `this.items = {}`, then persists and notifies. -/
def clearCart (env : Env) (_c : Cart) : Cart × List Event :=
  let c' : Cart := ⟨[]⟩
  (c', saveToStorage env c' :: notifyObservers env c')

/-- States reachable through the public API: property keys are pairwise
distinct (a JS object cannot hold two properties with one key) and no key
is the empty string (`addItem` rejects it, `removeItem` ignores it). -/
def WF (l : Items) : Prop :=
  (l.map Prod.fst).Nodup ∧ ∀ e ∈ l, e.1 ≠ ""

instance (l : Items) : Decidable (WF l) := by unfold WF; infer_instance

/-- Quantity invariant: every property present in `items` has
quantity ≥ 1. -/
def QtyInv (l : Items) : Prop := ∀ e ∈ l, 1 ≤ e.2.quantity

instance (l : Items) : Decidable (QtyInv l) := by unfold QtyInv; infer_instance

/-- Reference-level model of the object graph behind `getAllItems`.  In
JavaScript, `this.items` maps variant ids to *references* of the
`{ quantity, price }` record objects, which live on a heap of addresses;
the spread `{ ...this.items }` builds a new top-level object holding the
same references. -/
abbrev Heap := List (Nat × LineItem)

/-- Reference-level view of the cart's `items`: each property holds the
heap address of its record. -/
structure CartRef where
  itemRefs : List (String × Nat)

/-- Dereference a record address. -/
def heapGet (h : Heap) (a : Nat) : LineItem := (getEntry h a).getD ⟨0, 0⟩

/-- Assignment through a record reference, e.g. `r.quantity = 99` on the
record at address `a`. -/
def heapSet (h : Heap) (a : Nat) (v : LineItem) : Heap := mapEntry h a fun _ => v

/-- Source `getAllItems()` at the reference level: `{ ...this.items }`
copies the properties (in iteration order) into a fresh top-level object,
keeping the same record references. -/
def getAllItemsRef (c : CartRef) : List (String × Nat) := jsEntries c.itemRefs

/-- Internal read `this.items[id].quantity` at the reference level. -/
def getItemQuantityRef (h : Heap) (c : CartRef) (id : String) : Int :=
  match getEntry c.itemRefs id with
  | some a => (heapGet h a).quantity
  | none => 0

/-- Observer invocations appearing in an effect trace, in order. -/
def invocations (evts : List Event) : List (Nat × Snapshot × Bool) :=
  evts.filterMap fun e =>
    match e with
    | .invoke t s b => some (t, s, b)
    | _ => none

/-- Concrete environment: working storage, no subscribed observers. -/
def envPure : Env := ⟨true, []⟩

/-- Concrete environment: working storage and two observers in
subscription order, the first of which always throws. -/
def envTwo : Env := ⟨true, [(0, fun _ => true), (1, fun _ => false)]⟩

/-! ### Association-list lemmas -/

theorem getEntry_cons {κ α : Type} [DecidableEq κ] (k : κ) (v : α) (rest : List (κ × α))
    (key : κ) : getEntry ((k, v) :: rest) key = if k = key then some v else getEntry rest key :=
  rfl

theorem getEntry_append_left {κ α : Type} [DecidableEq κ] {l₁ : List (κ × α)}
    (l₂ : List (κ × α)) {k : κ} {v : α} (h : getEntry l₁ k = some v) :
    getEntry (l₁ ++ l₂) k = some v := by
  induction l₁ with
  | nil => simp [getEntry] at h
  | cons e rest ih =>
    obtain ⟨k₀, v₀⟩ := e
    rw [getEntry_cons] at h
    rw [List.cons_append, getEntry_cons]
    by_cases hk : k₀ = k
    · rw [if_pos hk] at h ⊢; exact h
    · rw [if_neg hk] at h ⊢; exact ih h

theorem getEntry_append_right {κ α : Type} [DecidableEq κ] {l₁ : List (κ × α)}
    (l₂ : List (κ × α)) {k : κ} (h : getEntry l₁ k = none) :
    getEntry (l₁ ++ l₂) k = getEntry l₂ k := by
  induction l₁ with
  | nil => simp
  | cons e rest ih =>
    obtain ⟨k₀, v₀⟩ := e
    rw [getEntry_cons] at h
    by_cases hk : k₀ = k
    · simp [hk] at h
    · rw [if_neg hk] at h
      rw [List.cons_append, getEntry_cons, if_neg hk]
      exact ih h

theorem getEntry_mapEntry {κ α : Type} [DecidableEq κ] (l : List (κ × α)) (key k : κ)
    (f : α → α) :
    getEntry (mapEntry l key f) k =
      if k = key then (getEntry l k).map f else getEntry l k := by
  induction l with
  | nil => simp [mapEntry, getEntry]
  | cons e rest ih =>
    obtain ⟨k₀, v₀⟩ := e
    simp only [mapEntry] at ih
    by_cases h₀ : k₀ = key <;> by_cases hk : k₀ = k
    · subst h₀; subst hk
      simp [mapEntry, getEntry_cons]
    · subst h₀
      have hk' : ¬k = k₀ := fun h => hk h.symm
      simp [mapEntry, getEntry_cons, hk, hk', ih]
    · subst hk
      have h₀' : ¬k₀ = key := h₀
      simp [mapEntry, getEntry_cons, h₀']
    · simp [mapEntry, getEntry_cons, h₀, hk, ih]

theorem getEntry_delEntry {κ α : Type} [DecidableEq κ] (l : List (κ × α)) (key k : κ) :
    getEntry (delEntry l key) k = if k = key then none else getEntry l k := by
  induction l with
  | nil => simp [delEntry, getEntry]
  | cons e rest ih =>
    obtain ⟨k₀, v₀⟩ := e
    simp only [delEntry, ne_eq, decide_not] at ih
    by_cases h₀ : k₀ = key <;> by_cases hk : k₀ = k
    · subst h₀; subst hk
      simp [delEntry, getEntry_cons, ih]
    · subst h₀
      have hk' : ¬k = k₀ := fun h => hk h.symm
      simp [delEntry, getEntry_cons, hk, hk', ih]
    · subst hk
      have h₀' : ¬k₀ = key := h₀
      simp [delEntry, getEntry_cons, h₀', ih]
    · simp [delEntry, getEntry_cons, h₀, hk, ih]

theorem getEntry_eq_none_iff {κ α : Type} [DecidableEq κ] {l : List (κ × α)} {k : κ} :
    getEntry l k = none ↔ k ∉ l.map Prod.fst := by
  induction l with
  | nil => simp [getEntry]
  | cons e rest ih =>
    obtain ⟨k₀, v₀⟩ := e
    rw [getEntry_cons]
    by_cases hk : k₀ = k
    · simp [hk]
    · simp [hk, Ne.symm hk, ih]

theorem getEntry_eq_some_iff_mem {κ α : Type} [DecidableEq κ] {l : List (κ × α)} {k : κ}
    {v : α} (hnd : (l.map Prod.fst).Nodup) :
    getEntry l k = some v ↔ (k, v) ∈ l := by
  revert hnd
  induction l with
  | nil => intro _; simp [getEntry]
  | cons e rest ih =>
    intro hnd
    obtain ⟨k₀, v₀⟩ := e
    simp only [List.map_cons, List.nodup_cons] at hnd
    by_cases hk : k₀ = k
    · subst hk
      rw [getEntry_cons, if_pos rfl]
      simp only [List.mem_cons, Option.some_inj, Prod.mk.injEq]
      constructor
      · rintro rfl; exact Or.inl ⟨trivial, rfl⟩
      · rintro (⟨-, rfl⟩ | hmem)
        · rfl
        · exact absurd (List.mem_map_of_mem Prod.fst hmem) hnd.1
    · simp only [getEntry_cons, if_neg hk, List.mem_cons, Prod.mk.injEq]
      rw [ih hnd.2]
      constructor
      · exact Or.inr
      · rintro (⟨rfl, -⟩ | hmem)
        · exact absurd rfl hk
        · exact hmem

theorem getEntry_congr_perm {κ α : Type} [DecidableEq κ] {l l' : List (κ × α)}
    (hp : l.Perm l') (hnd : (l.map Prod.fst).Nodup) (k : κ) :
    getEntry l' k = getEntry l k := by
  have hnd' : (l'.map Prod.fst).Nodup := ((hp.map Prod.fst).nodup_iff).mp hnd
  cases h : getEntry l k with
  | some v =>
    exact (getEntry_eq_some_iff_mem hnd').mpr (hp.mem_iff.mp ((getEntry_eq_some_iff_mem hnd).mp h))
  | none =>
    refine getEntry_eq_none_iff.mpr ?_
    exact fun hm => (getEntry_eq_none_iff.mp h) ((hp.map Prod.fst).mem_iff.mpr hm)

theorem keys_mapEntry {κ α : Type} [DecidableEq κ] (l : List (κ × α)) (key : κ) (f : α → α) :
    (mapEntry l key f).map Prod.fst = l.map Prod.fst := by
  unfold mapEntry
  rw [List.map_map]
  refine List.map_congr_left fun e _ => ?_
  by_cases h : e.1 = key <;> simp [h]

theorem keys_delEntry_sublist {κ α : Type} [DecidableEq κ] (l : List (κ × α)) (key : κ) :
    ((delEntry l key).map Prod.fst).Sublist (l.map Prod.fst) :=
  (List.filter_sublist l).map Prod.fst

theorem mem_mapEntry {κ α : Type} [DecidableEq κ] {l : List (κ × α)} {key : κ} {f : α → α}
    {e : κ × α} (h : e ∈ mapEntry l key f) :
    ∃ e₀ ∈ l, e = if e₀.1 = key then (e₀.1, f e₀.2) else e₀ := by
  obtain ⟨e₀, he₀, rfl⟩ := List.mem_map.mp h
  exact ⟨e₀, he₀, rfl⟩

theorem mem_delEntry {κ α : Type} [DecidableEq κ] {l : List (κ × α)} {key : κ} {e : κ × α}
    (h : e ∈ delEntry l key) : e ∈ l ∧ e.1 ≠ key := by
  have := List.mem_filter.mp h
  exact ⟨this.1, by simpa using this.2⟩

/-! ### Iteration-order lemmas -/

theorem jsEntries_perm {α : Type} (l : List (String × α)) : (jsEntries l).Perm l := by
  refine List.Perm.trans ?_ (List.filter_append_perm (fun e => isArrayIndex e.1) l)
  exact (List.perm_insertionSort idxLe _).append_right _

theorem mem_jsEntries {α : Type} {l : List (String × α)} {e : String × α} :
    e ∈ jsEntries l ↔ e ∈ l :=
  (jsEntries_perm l).mem_iff

theorem jsEntries_nil {α : Type} : jsEntries ([] : List (String × α)) = [] := rfl

theorem jsEntries_idem {α : Type} (l : List (String × α)) :
    jsEntries (jsEntries l) = jsEntries l := by
  set p : String × α → Bool := fun e => isArrayIndex e.1 with hp
  set S := List.insertionSort idxLe (l.filter p) with hS
  set B := l.filter fun e => !p e with hB
  have hSmem : ∀ e ∈ S, p e := by
    intro e he
    have : e ∈ l.filter p := (List.mem_insertionSort idxLe).mp he
    exact (List.mem_filter.mp this).2
  have hBmem : ∀ e ∈ B, ¬p e := by
    intro e he
    simpa using (List.mem_filter.mp he).2
  have h1 : (S ++ B).filter p = S := by
    rw [List.filter_append, List.filter_eq_self.mpr hSmem,
      List.filter_eq_nil_iff.mpr fun e he => by simpa using hBmem e he, List.append_nil]
  have h2 : (S ++ B).filter (fun e => !p e) = B := by
    rw [List.filter_append, List.filter_eq_nil_iff.mpr fun e he => by simp [hSmem e he],
      List.filter_eq_self.mpr fun e he => by simpa using hBmem e he, List.nil_append]
  have h3 : List.insertionSort idxLe S = S :=
    (List.sorted_insertionSort idxLe _).insertionSort_eq
  show (List.insertionSort idxLe ((S ++ B).filter p)) ++ (S ++ B).filter (fun e => !p e)
      = S ++ B
  rw [h1, h2, h3]

theorem jsEntries_eq_self_of_no_index {α : Type} (l : List (String × α))
    (h : ∀ e ∈ l, isArrayIndex e.1 = false) : jsEntries l = l := by
  unfold jsEntries
  rw [List.filter_eq_nil_iff.mpr fun e he => by simp [h e he],
    List.filter_eq_self.mpr fun e he => by simp [h e he]]
  rfl

theorem keys_jsEntries_nodup {α : Type} {l : List (String × α)}
    (hnd : (l.map Prod.fst).Nodup) : ((jsEntries l).map Prod.fst).Nodup :=
  (((jsEntries_perm l).map Prod.fst).nodup_iff).mpr hnd

theorem getEntry_jsEntries {α : Type} (l : List (String × α))
    (hnd : (l.map Prod.fst).Nodup) (k : String) :
    getEntry (jsEntries l) k = getEntry l k :=
  getEntry_congr_perm (jsEntries_perm l).symm hnd k

/-! ### Totals -/

theorem foldl_add_shift {α : Type} (g : α → Int) (l : List α) (a : Int) :
    l.foldl (fun t e => t + g e) a = a + (l.map g).sum := by
  induction l generalizing a with
  | nil => simp
  | cons x xs ih => simp [ih]; ring

theorem getTotalQuantity_eq (c : Cart) :
    getTotalQuantity c = (c.items.map fun e => e.2.quantity).sum := by
  unfold getTotalQuantity
  rw [foldl_add_shift, ((jsEntries_perm c.items).map _).sum_eq, zero_add]

theorem getTotalPrice_eq (c : Cart) :
    getTotalPrice c =
      (c.items.map fun e => e.2.quantity * (if e.2.price = 0 then 0 else e.2.price)).sum := by
  unfold getTotalPrice
  rw [foldl_add_shift, ((jsEntries_perm c.items).map _).sum_eq, zero_add]

/-! ### Persistence round trip -/

theorem lineItemOfJson_jsonOfLineItem (it : LineItem) :
    lineItemOfJson (jsonOfLineItem it) = it := rfl

theorem itemsOfJson_jsonOfItems (l : Items) : itemsOfJson (jsonOfItems l) = jsEntries l := by
  simp only [jsonOfItems, itemsOfJson, List.map_map]
  refine (List.map_congr_left fun e _ => ?_).trans (List.map_id _)
  simp [Function.comp, lineItemOfJson_jsonOfLineItem]

/-! ### Operation characterisations -/

theorem getEntry_append_singleton_ne {κ α : Type} [DecidableEq κ] (l : List (κ × α))
    (k₀ : κ) (v₀ : α) {k : κ} (hk : k ≠ k₀) :
    getEntry (l ++ [(k₀, v₀)]) k = getEntry l k := by
  cases h : getEntry l k with
  | some v => exact getEntry_append_left _ h
  | none =>
    rw [getEntry_append_right _ h, getEntry_cons, if_neg fun hh => hk hh.symm]
    rfl

theorem addItem_present (env : Env) (c : Cart) {id : String} (price : Int) (hid : id ≠ "")
    {it : LineItem} (h : getEntry c.items id = some it) :
    addItem env c id price =
      (let items1 := mapEntry c.items id fun x => { x with quantity := x.quantity + 1 }
       let items2 := if price > 0 then mapEntry items1 id fun x => { x with price := price }
         else items1
       (Except.ok (it.quantity + 1), ⟨items2⟩,
        saveToStorage env ⟨items2⟩ :: notifyObservers env ⟨items2⟩)) := by
  simp only [addItem, if_neg hid, h]
  by_cases hp : price > 0 <;>
    simp [hp, getEntry_mapEntry, h]

theorem mapEntry_absent {κ α : Type} [DecidableEq κ] {l : List (κ × α)} {key : κ}
    (h : getEntry l key = none) (f : α → α) : mapEntry l key f = l := by
  unfold mapEntry
  refine (List.map_congr_left fun e he => ?_).trans (List.map_id _)
  have : ¬e.1 = key := by
    intro hkey
    exact absurd h (by
      rw [getEntry_eq_none_iff]
      simp only [not_not]
      exact hkey ▸ List.mem_map_of_mem Prod.fst he)
  simp [this]

theorem mapEntry_append {κ α : Type} [DecidableEq κ] (l₁ l₂ : List (κ × α)) (key : κ)
    (f : α → α) : mapEntry (l₁ ++ l₂) key f = mapEntry l₁ key f ++ mapEntry l₂ key f := by
  simp [mapEntry]

theorem addItem_absent (env : Env) (c : Cart) {id : String} (price : Int) (hid : id ≠ "")
    (h : getEntry c.items id = none) :
    addItem env c id price =
      (let items2 := c.items ++ [(id, ⟨1, price⟩)]
       (Except.ok 1, ⟨items2⟩,
        saveToStorage env ⟨items2⟩ :: notifyObservers env ⟨items2⟩)) := by
  have hget1 : getEntry (c.items ++ [(id, (⟨1, price⟩ : LineItem))]) id = some ⟨1, price⟩ := by
    rw [getEntry_append_right _ h, getEntry_cons, if_pos rfl]
  simp only [addItem, if_neg hid, h, mapEntry_append, mapEntry_absent h]
  have hsingle1 : mapEntry [(id, (⟨0, price⟩ : LineItem))] id
      (fun x => { x with quantity := x.quantity + 1 }) = [(id, ⟨1, price⟩)] := by
    simp [mapEntry]
  rw [hsingle1]
  by_cases hp : price > 0
  · rw [if_pos hp]
    have hsingle2 : mapEntry [(id, (⟨1, price⟩ : LineItem))] id
        (fun x => { x with price := price }) = [(id, ⟨1, price⟩)] := by
      simp [mapEntry]
    rw [hsingle2, hget1]
  · rw [if_neg hp, hget1]

theorem removeItem_absent (env : Env) (c : Cart) {id : String}
    (h : getEntry c.items id = none) : removeItem env c id = (0, c, []) := by
  by_cases hid : id = ""
  · simp [removeItem, hid]
  · simp [removeItem, hid, h]

theorem removeItem_present (env : Env) (c : Cart) {id : String} (hid : id ≠ "")
    {it : LineItem} (h : getEntry c.items id = some it) :
    removeItem env c id =
      (let items1 := mapEntry c.items id fun x => { x with quantity := x.quantity - 1 }
       if it.quantity - 1 ≤ 0 then
        (0, ⟨delEntry items1 id⟩,
         saveToStorage env ⟨delEntry items1 id⟩ :: notifyObservers env ⟨delEntry items1 id⟩)
       else
        (it.quantity - 1, ⟨items1⟩,
         saveToStorage env ⟨items1⟩ :: notifyObservers env ⟨items1⟩)) := by
  simp only [removeItem, if_neg hid, h, getEntry_mapEntry]
  by_cases hq : it.quantity - 1 ≤ 0 <;> simp [hq]

theorem getEntry_mem_of_eq_some {κ α : Type} [DecidableEq κ] {l : List (κ × α)} {k : κ}
    {v : α} (h : getEntry l k = some v) : (k, v) ∈ l := by
  induction l with
  | nil => simp [getEntry] at h
  | cons e rest ih =>
    obtain ⟨k₀, v₀⟩ := e
    rw [getEntry_cons] at h
    by_cases hk : k₀ = k
    · subst hk
      rw [if_pos rfl] at h
      rw [← Option.some_inj.mp h]
      exact List.mem_cons_self _ _
    · rw [if_neg hk] at h
      exact List.mem_cons_of_mem _ (ih h)

/-! ### Preservation of well-formedness and the quantity invariant -/

theorem WF_mapEntry {l : Items} {key : String} {f : LineItem → LineItem} (h : WF l) :
    WF (mapEntry l key f) := by
  refine ⟨by rw [keys_mapEntry]; exact h.1, fun e he => ?_⟩
  obtain ⟨e₀, he₀, hef⟩ := mem_mapEntry he
  have hfst : e.1 = e₀.1 := by
    by_cases hk : e₀.1 = key <;> simp [hk] at hef <;> simp [hef, hk]
  rw [hfst]
  exact h.2 e₀ he₀

theorem WF_delEntry {l : Items} {key : String} (h : WF l) : WF (delEntry l key) :=
  ⟨h.1.sublist (keys_delEntry_sublist l key), fun e he => h.2 e (mem_delEntry he).1⟩

theorem WF_append_new {l : Items} {id : String} {v : LineItem} (h : WF l)
    (hid : id ≠ "") (habs : getEntry l id = none) : WF (l ++ [(id, v)]) := by
  refine ⟨?_, fun e he => ?_⟩
  · rw [List.map_append]
    rw [List.nodup_append]
    refine ⟨h.1, List.nodup_singleton _, fun a ha hb => ?_⟩
    simp only [List.map_cons, List.map_nil, List.mem_singleton] at hb
    subst hb
    exact getEntry_eq_none_iff.mp habs ha
  · rcases List.mem_append.mp he with hm | hm
    · exact h.2 e hm
    · simp only [List.mem_singleton] at hm
      rw [hm]
      exact hid

theorem QtyInv_mapEntry {l : Items} {key : String} {f : LineItem → LineItem}
    (hq : QtyInv l) (hf : ∀ it : LineItem, 1 ≤ it.quantity → 1 ≤ (f it).quantity) :
    QtyInv (mapEntry l key f) := by
  intro e he
  obtain ⟨e₀, he₀, hef⟩ := mem_mapEntry he
  by_cases hk : e₀.1 = key
  · rw [hef, if_pos hk]; exact hf _ (hq e₀ he₀)
  · rw [hef, if_neg hk]; exact hq e₀ he₀

theorem QtyInv_append_new {l : Items} {id : String} {v : LineItem} (hq : QtyInv l)
    (hv : 1 ≤ v.quantity) : QtyInv (l ++ [(id, v)]) := by
  intro e he
  rcases List.mem_append.mp he with hm | hm
  · exact hq e hm
  · simp only [List.mem_singleton] at hm
    rw [hm]
    exact hv

/-! ### Notification traces -/

theorem invocations_save_notify (env : Env) (c : Cart) (pay : JValue) (ok : Bool) :
    invocations (Event.save pay ok :: notifyObservers env c) =
      env.observers.map fun ob => (ob.1, snapshot c, ob.2 (snapshot c)) := by
  simp only [invocations, notifyObservers, List.filterMap_cons]
  generalize snapshot c = s
  generalize env.observers = obs
  induction obs with
  | nil => rfl
  | cons ob rest ih => simpa [List.filterMap_cons] using ih

theorem invocations_op_events (env : Env) (c : Cart) :
    invocations (saveToStorage env c :: notifyObservers env c) =
      env.observers.map fun ob => (ob.1, snapshot c, ob.2 (snapshot c)) :=
  invocations_save_notify env c _ _

theorem addItem_events (env : Env) (c : Cart) {id : String} (price : Int) (hid : id ≠ "") :
    (addItem env c id price).2.2 =
      saveToStorage env (addItem env c id price).2.1 ::
        notifyObservers env (addItem env c id price).2.1 := by
  cases h : getEntry c.items id with
  | none => rw [addItem_absent env c price hid h]
  | some it => rw [addItem_present env c price hid h]

theorem removeItem_events (env : Env) (c : Cart) {id : String} (hid : id ≠ "")
    {it : LineItem} (h : getEntry c.items id = some it) :
    (removeItem env c id).2.2 =
      saveToStorage env (removeItem env c id).2.1 ::
        notifyObservers env (removeItem env c id).2.1 := by
  rw [removeItem_present env c hid h]
  by_cases hdel : it.quantity - 1 ≤ 0 <;> simp [hdel]

theorem addItem_env_independent (env env' : Env) (c : Cart) (id : String) (price : Int) :
    (addItem env' c id price).1 = (addItem env c id price).1 ∧
    (addItem env' c id price).2.1 = (addItem env c id price).2.1 := by
  by_cases hid : id = ""
  · simp [addItem, hid]
  · cases h : getEntry c.items id with
    | none =>
      rw [addItem_absent env c price hid h, addItem_absent env' c price hid h]
      exact ⟨rfl, rfl⟩
    | some it =>
      rw [addItem_present env c price hid h, addItem_present env' c price hid h]
      exact ⟨rfl, rfl⟩

theorem removeItem_env_independent (env env' : Env) (c : Cart) (id : String) :
    (removeItem env' c id).1 = (removeItem env c id).1 ∧
    (removeItem env' c id).2.1 = (removeItem env c id).2.1 := by
  by_cases hid : id = ""
  · simp [removeItem, hid]
  · cases h : getEntry c.items id with
    | none =>
      rw [removeItem_absent env c h, removeItem_absent env' c h]
      exact ⟨rfl, rfl⟩
    | some it =>
      rw [removeItem_present env c hid h, removeItem_present env' c hid h]
      by_cases hdel : it.quantity - 1 ≤ 0 <;> simp [hdel]

theorem addItem_items_absent (env : Env) (c : Cart) {id : String} (price : Int)
    (hid : id ≠ "") (h : getEntry c.items id = none) :
    (addItem env c id price).2.1.items = c.items ++ [(id, ⟨1, price⟩)] := by
  rw [addItem_absent env c price hid h]

theorem addItem_items_present (env : Env) (c : Cart) {id : String} (price : Int)
    (hid : id ≠ "") {it : LineItem} (h : getEntry c.items id = some it) :
    (addItem env c id price).2.1.items =
      if price > 0 then
        mapEntry (mapEntry c.items id fun x => { x with quantity := x.quantity + 1 }) id
          fun x => { x with price := price }
      else mapEntry c.items id fun x => { x with quantity := x.quantity + 1 } := by
  rw [addItem_present env c price hid h]

theorem removeItem_items_present (env : Env) (c : Cart) {id : String} (hid : id ≠ "")
    {it : LineItem} (h : getEntry c.items id = some it) :
    (removeItem env c id).2.1.items =
      if it.quantity - 1 ≤ 0 then
        delEntry (mapEntry c.items id fun x => { x with quantity := x.quantity - 1 }) id
      else mapEntry c.items id fun x => { x with quantity := x.quantity - 1 } := by
  rw [removeItem_present env c hid h]
  by_cases hdel : it.quantity - 1 ≤ 0 <;> simp [hdel]

/-! ### The claims -/

/-- Claim C9: for the empty identifier (`!variantId`), `addItem` throws
`InvalidArgument` before performing any mutation: the returned cart is the
input cart unchanged, and the effect trace is empty — no entry is created
or changed, no storage write occurs, and no observer is notified. -/
theorem addItem_empty_id_atomic (env : Env) (c : Cart) (price : Int) :
    addItem env c "" price = (Except.error "Variant ID is required", c, []) := rfl

/-- Claim C10: when `addItem` creates a new entry, the given price is
stored unconditionally — the `price > 0` guard only governs overwriting an
existing entry's price — so a first add with a negative price stores a
negative unit price, and `getTotalPrice` can return a negative total, as
the concrete run `addItem("v1", -5)` on an empty cart shows. -/
theorem addItem_negative_price_stored (env : Env) (c : Cart) (id : String) (price : Int)
    (hid : id ≠ "") (habs : getEntry c.items id = none) :
    getEntry (addItem env c id price).2.1.items id = some ⟨1, price⟩ ∧
    getEntry (addItem envPure ⟨[]⟩ "v1" (-5)).2.1.items "v1" = some ⟨1, -5⟩ ∧
    getTotalPrice (addItem envPure ⟨[]⟩ "v1" (-5)).2.1 = -5 ∧
    getTotalPrice (addItem envPure ⟨[]⟩ "v1" (-5)).2.1 < 0 := by
  refine ⟨?_, by decide, by decide, by decide⟩
  rw [addItem_absent env c price hid habs]
  show getEntry (c.items ++ [(id, ⟨1, price⟩)]) id = some ⟨1, price⟩
  rw [getEntry_append_right _ habs, getEntry_cons, if_pos rfl]

/-- Witness for C10 at the concrete input `addItem("v1", -5)` on the empty
cart. -/
theorem addItem_negative_price_stored_witness :
    ("v1" : String) ≠ "" ∧ getEntry ([] : Items) "v1" = none ∧
    getEntry (addItem envPure ⟨[]⟩ "v1" (-5)).2.1.items "v1" = some ⟨1, -5⟩ :=
  ⟨by decide, by decide,
    (addItem_negative_price_stored envPure ⟨[]⟩ "v1" (-5) (by decide) (by decide)).1⟩

/-- Claim C8: the persistence encoding round-trips the observable state.
Serialising `items` as `saveToStorage` does (`jsonOfItems`) and
constructing a new store from the parsed value yields a store whose
`getAllItems`, `getTotalQuantity` and `getTotalPrice` exactly equal those
of the original. -/
theorem persistence_round_trip (l : Items) :
    getAllItems (mkCart (.parsed (jsonOfItems l))) = getAllItems ⟨l⟩ ∧
    getTotalQuantity (mkCart (.parsed (jsonOfItems l))) = getTotalQuantity ⟨l⟩ ∧
    getTotalPrice (mkCart (.parsed (jsonOfItems l))) = getTotalPrice ⟨l⟩ := by
  have hitems : (mkCart (.parsed (jsonOfItems l))).items = jsEntries l := by
    simp [mkCart, loadFromStorage, itemsOfJson_jsonOfItems]
  refine ⟨?_, ?_, ?_⟩
  · show jsEntries (mkCart (.parsed (jsonOfItems l))).items = jsEntries l
    rw [hitems, jsEntries_idem]
  · rw [getTotalQuantity_eq, getTotalQuantity_eq, hitems]
    exact ((jsEntries_perm l).map _).sum_eq
  · rw [getTotalPrice_eq, getTotalPrice_eq, hitems]
    exact ((jsEntries_perm l).map _).sum_eq

/-- Claim C6 is refuted: the pair order in the checkout URL is the
ECMAScript property iteration order, which places array-index identifiers
(such as Shopify's numeric variant ids) in ascending numeric order ahead
of other keys — not the insertion order.  Adding `"2"` then `"1"` records
insertion order `["2", "1"]` but produces `…/1:1,2:1`, not `…/2:1,1:1`. -/
theorem checkoutUrl_insertion_order_refuted :
    ((addItem envPure (addItem envPure ⟨[]⟩ "2" 1).2.1 "1" 1).2.1.items.map Prod.fst
      = ["2", "1"]) ∧
    getCheckoutUrl (addItem envPure (addItem envPure ⟨[]⟩ "2" 1).2.1 "1" 1).2.1
      = checkoutBase ++ "/" ++ "1:1,2:1" ∧
    getCheckoutUrl (addItem envPure (addItem envPure ⟨[]⟩ "2" 1).2.1 "1" 1).2.1
      ≠ checkoutBase ++ "/" ++ "2:1,1:1" := by
  refine ⟨by decide, by decide, by decide⟩

/-- Claim C6 (amended): an empty cart yields exactly the bare base URL; a
non-empty cart yields the base URL with one path segment of comma-joined
`identifier:quantity` pairs in JS property iteration order, which equals
the insertion order whenever no identifier is an array-index string — in
particular `addItem("v1")` then `addItem("v2")` yields `base/v1:1,v2:1`. -/
theorem checkoutUrl_amended (c : Cart) :
    (isEmpty c = true → getCheckoutUrl c = checkoutBase) ∧
    (isEmpty c = false → (∀ e ∈ c.items, isArrayIndex e.1 = false) →
      getCheckoutUrl c = checkoutBase ++ "/" ++
        String.intercalate ","
          (c.items.map fun e => e.1 ++ ":" ++ toString e.2.quantity)) ∧
    getCheckoutUrl (addItem envPure (addItem envPure ⟨[]⟩ "v1" 0).2.1 "v2" 0).2.1
      = checkoutBase ++ "/" ++ "v1:1,v2:1" := by
  refine ⟨fun he => ?_, fun hne hni => ?_, by decide⟩
  · simp [getCheckoutUrl, he]
  · simp only [getCheckoutUrl, hne, Bool.false_eq_true, if_false,
      jsEntries_eq_self_of_no_index c.items hni]

/-- Witness for the amended C6 on the concrete non-empty cart
`{v1 ↦ {quantity 2, price 3}}`, whose identifier is not an array index. -/
theorem checkoutUrl_amended_witness :
    isEmpty ⟨[("v1", ⟨2, 3⟩)]⟩ = false ∧
    (∀ e ∈ ([("v1", (⟨2, 3⟩ : LineItem))] : Items), isArrayIndex e.1 = false) ∧
    getCheckoutUrl ⟨[("v1", ⟨2, 3⟩)]⟩ = checkoutBase ++ "/" ++
      String.intercalate ","
        (([("v1", (⟨2, 3⟩ : LineItem))] : Items).map
          fun e => e.1 ++ ":" ++ toString e.2.quantity) :=
  ⟨by decide, by decide, (checkoutUrl_amended ⟨[("v1", ⟨2, 3⟩)]⟩).2.1 (by decide) (by decide)⟩

/-- Claim C7 is refuted: `getAllItems()` returns `{ ...this.items }`, a
shallow copy.  At the reference level the copy's entry for `"v1"` is the
same record address (0) as the store's; assigning `quantity = 99` through
that shared record makes the store's own subsequent read return 99 instead
of the original 1 — so mutating a nested `{quantity, price}` record of the
returned object does change internal state. -/
theorem getAllItems_deep_copy_refuted :
    getEntry (getAllItemsRef ⟨[("v1", 0)]⟩) "v1" = some 0 ∧
    getItemQuantityRef [(0, ⟨1, 5⟩)] ⟨[("v1", 0)]⟩ "v1" = 1 ∧
    getItemQuantityRef (heapSet [(0, ⟨1, 5⟩)] 0 ⟨99, 5⟩) ⟨[("v1", 0)]⟩ "v1" = 99 := by
  decide

/-- Claim C7 (amended): `getAllItems` returns a fresh top-level object —
so replacing or removing entries of the result cannot affect the store —
but its entries reference the same nested `{quantity, price}` records: the
copy resolves every identifier to the very address the store holds, and an
assignment through such a shared record is visible in the store's
subsequent reads. -/
theorem getAllItems_shallow_copy_amended (h : Heap) (c : CartRef) (id : String)
    (hnd : (c.itemRefs.map Prod.fst).Nodup) :
    getEntry (getAllItemsRef c) id = getEntry c.itemRefs id ∧
    (∀ a v w, getEntry c.itemRefs id = some a → getEntry h a = some w →
      getItemQuantityRef (heapSet h a v) c id = v.quantity) := by
  constructor
  · exact getEntry_jsEntries c.itemRefs hnd id
  · intro a v w ha hw
    simp only [getItemQuantityRef, ha, heapGet, heapSet, getEntry_mapEntry, if_pos rfl, hw]
    rfl

/-- Claim C1: for every non-empty identifier and every price argument,
`addItem` creates a missing entry (initial quantity 0, stored price = the
given price) and then increments its quantity by 1, so the entry ends at
quantity 1 with the given price; on an existing entry it increments the
quantity and overwrites the stored price exactly when `price > 0` (a
zero/absent price leaves the earlier stored price unchanged); the new
quantity is returned.  In particular `addItem("v1", 10)` followed by
`addItem("v1", 0)` yields quantity 2 and total price 20. -/
theorem addItem_behaviour (env : Env) (c : Cart) (id : String) (price : Int)
    (hid : id ≠ "") :
    (getEntry c.items id = none →
      (addItem env c id price).1 = Except.ok 1 ∧
      getEntry (addItem env c id price).2.1.items id = some ⟨1, price⟩) ∧
    (∀ it, getEntry c.items id = some it →
      (addItem env c id price).1 = Except.ok (it.quantity + 1) ∧
      getEntry (addItem env c id price).2.1.items id =
        some ⟨it.quantity + 1, if price > 0 then price else it.price⟩) ∧
    getItemQuantity (addItem envPure (addItem envPure ⟨[]⟩ "v1" 10).2.1 "v1" 0).2.1 "v1"
      = 2 ∧
    getTotalPrice (addItem envPure (addItem envPure ⟨[]⟩ "v1" 10).2.1 "v1" 0).2.1 = 20 := by
  refine ⟨fun habs => ⟨?_, ?_⟩, fun it hpres => ⟨?_, ?_⟩, by decide, by decide⟩
  · rw [addItem_absent env c price hid habs]
  · rw [addItem_items_absent env c price hid habs, getEntry_append_right _ habs,
      getEntry_cons, if_pos rfl]
  · rw [addItem_present env c price hid hpres]
  · rw [addItem_items_present env c price hid hpres]
    by_cases hp : price > 0
    · rw [if_pos hp, if_pos hp, getEntry_mapEntry, if_pos rfl, getEntry_mapEntry,
        if_pos rfl, hpres]
      rfl
    · rw [if_neg hp, if_neg hp, getEntry_mapEntry, if_pos rfl, hpres]
      rfl

/-- Witness for C1: a first add of `"v1"` at price 10 on the empty cart
returns 1 and stores `{quantity 1, price 10}`. -/
theorem addItem_behaviour_witness :
    ("v1" : String) ≠ "" ∧ getEntry ([] : Items) "v1" = none ∧
    ((addItem envPure ⟨[]⟩ "v1" 10).1 = Except.ok 1 ∧
      getEntry (addItem envPure ⟨[]⟩ "v1" 10).2.1.items "v1" = some ⟨1, 10⟩) :=
  ⟨by decide, by decide,
    (addItem_behaviour envPure ⟨[]⟩ "v1" 10 (by decide)).1 (by decide)⟩

/-- Claim C2: `removeItem` on an identifier absent from `items` returns 0
and leaves the state untouched, with an empty effect trace (no storage
write, no observer notification); on a present identifier it decrements
the quantity by 1, and then either deletes the entry and returns 0 (when
the new quantity is ≤ 0) or persists, notifies and returns the remaining
quantity. -/
theorem removeItem_behaviour (env : Env) (c : Cart) (id : String) (hwf : WF c.items) :
    (getEntry c.items id = none → removeItem env c id = (0, c, [])) ∧
    (∀ it, getEntry c.items id = some it →
      (it.quantity - 1 ≤ 0 →
        (removeItem env c id).1 = 0 ∧
        getEntry (removeItem env c id).2.1.items id = none) ∧
      (¬it.quantity - 1 ≤ 0 →
        (removeItem env c id).1 = it.quantity - 1 ∧
        getEntry (removeItem env c id).2.1.items id =
          some ⟨it.quantity - 1, it.price⟩ ∧
        (removeItem env c id).2.2 =
          saveToStorage env (removeItem env c id).2.1 ::
            notifyObservers env (removeItem env c id).2.1)) := by
  refine ⟨fun habs => removeItem_absent env c habs, fun it hpres => ⟨?_, ?_⟩⟩ <;>
    have hid : id ≠ "" := hwf.2 (id, it) (getEntry_mem_of_eq_some hpres)
  · intro hdel
    refine ⟨?_, ?_⟩
    · rw [removeItem_present env c hid hpres]
      simp [hdel]
    · rw [removeItem_items_present env c hid hpres, if_pos hdel, getEntry_delEntry,
        if_pos rfl]
  · intro hdel
    refine ⟨?_, ?_, removeItem_events env c hid hpres⟩
    · rw [removeItem_present env c hid hpres]
      simp [hdel]
    · rw [removeItem_items_present env c hid hpres, if_neg hdel, getEntry_mapEntry,
        if_pos rfl, hpres]
      rfl

/-- Witness for C2: removing `"v1"` from `{v1 ↦ {quantity 2, price 5}}`
keeps the entry at quantity 1 and returns 1. -/
theorem removeItem_behaviour_witness :
    WF ([("v1", (⟨2, 5⟩ : LineItem))] : Items) ∧
    getEntry ([("v1", (⟨2, 5⟩ : LineItem))] : Items) "v1" = some ⟨2, 5⟩ ∧
    ¬(⟨2, 5⟩ : LineItem).quantity - 1 ≤ 0 ∧
    (removeItem envPure ⟨[("v1", ⟨2, 5⟩)]⟩ "v1").1 = (⟨2, 5⟩ : LineItem).quantity - 1 :=
  ⟨by decide, by decide, by decide,
    ((((removeItem_behaviour envPure ⟨[("v1", ⟨2, 5⟩)]⟩ "v1" (by decide)).2
      ⟨2, 5⟩ (by decide)).2) (by decide)).1⟩

/-- Claim C3: starting from any state satisfying the invariant — every
identifier present in `items` has quantity ≥ 1 (together with the
well-formedness every API-reachable JS object has: pairwise-distinct,
non-empty keys) — each public operation `addItem`, `removeItem` and
`clearCart` returns a state satisfying it again: no entry with a zero or
negative quantity ever persists, reaching 0 removes the entry. -/
theorem quantity_invariant_preserved (env : Env) (c : Cart) (hwf : WF c.items)
    (hq : QtyInv c.items) :
    (∀ id price, WF (addItem env c id price).2.1.items ∧
      QtyInv (addItem env c id price).2.1.items) ∧
    (∀ id, WF (removeItem env c id).2.1.items ∧
      QtyInv (removeItem env c id).2.1.items) ∧
    (WF (clearCart env c).1.items ∧ QtyInv (clearCart env c).1.items) := by
  refine ⟨fun id price => ?_, fun id => ?_, ?_⟩
  · by_cases hid : id = ""
    · subst hid
      exact ⟨hwf, hq⟩
    · cases h : getEntry c.items id with
      | none =>
        rw [addItem_items_absent env c price hid h]
        exact ⟨WF_append_new hwf hid h, QtyInv_append_new hq (le_refl 1)⟩
      | some it =>
        rw [addItem_items_present env c price hid h]
        by_cases hp : price > 0
        · rw [if_pos hp]
          refine ⟨WF_mapEntry (WF_mapEntry hwf), ?_⟩
          refine QtyInv_mapEntry (QtyInv_mapEntry hq ?_) ?_
          · intro x hx
            show (1 : Int) ≤ x.quantity + 1
            omega
          · intro x hx
            exact hx
        · rw [if_neg hp]
          refine ⟨WF_mapEntry hwf, QtyInv_mapEntry hq ?_⟩
          intro x hx
          show (1 : Int) ≤ x.quantity + 1
          omega
  · by_cases hid : id = ""
    · have : removeItem env c id = (0, c, []) := by simp [removeItem, hid]
      rw [this]
      exact ⟨hwf, hq⟩
    · cases h : getEntry c.items id with
      | none =>
        rw [removeItem_absent env c h]
        exact ⟨hwf, hq⟩
      | some it =>
        rw [removeItem_items_present env c hid h]
        by_cases hdel : it.quantity - 1 ≤ 0
        · rw [if_pos hdel]
          refine ⟨WF_delEntry (WF_mapEntry hwf), ?_⟩
          intro e he
          obtain ⟨hm, hne⟩ := mem_delEntry he
          obtain ⟨e₀, he₀, hef⟩ := mem_mapEntry hm
          by_cases hk : e₀.1 = id
          · exact absurd (by rw [hef, if_pos hk]; exact hk) hne
          · rw [hef, if_neg hk]
            exact hq e₀ he₀
        · rw [if_neg hdel]
          refine ⟨WF_mapEntry hwf, ?_⟩
          intro e he
          obtain ⟨e₀, he₀, hef⟩ := mem_mapEntry he
          by_cases hk : e₀.1 = id
          · have he₀' : getEntry c.items id = some e₀.2 :=
              (getEntry_eq_some_iff_mem hwf.1).mpr (by
                obtain ⟨k₀, v₀⟩ := e₀
                simp only at hk
                rw [← hk]
                exact he₀)
            rw [h] at he₀'
            have hit : e₀.2 = it := (Option.some_inj.mp he₀').symm
            rw [hef, if_pos hk]
            show (1 : Int) ≤ e₀.2.quantity - 1
            rw [hit]
            omega
          · rw [hef, if_neg hk]
            exact hq e₀ he₀
  · exact ⟨⟨List.nodup_nil, by intro e he; exact absurd he (List.not_mem_nil e)⟩,
      fun e he => absurd he (List.not_mem_nil e)⟩

/-- Witness for C3 on the concrete well-formed state
`{v1 ↦ {quantity 1, price 4}}`: `addItem("v2", 2)` preserves the
invariant. -/
theorem quantity_invariant_preserved_witness :
    WF ([("v1", (⟨1, 4⟩ : LineItem))] : Items) ∧
    QtyInv ([("v1", (⟨1, 4⟩ : LineItem))] : Items) ∧
    QtyInv (addItem envPure ⟨[("v1", ⟨1, 4⟩)]⟩ "v2" 2).2.1.items :=
  ⟨by decide, by decide,
    ((quantity_invariant_preserved envPure ⟨[("v1", ⟨1, 4⟩)]⟩ (by decide)
      (by decide)).1 "v2" 2).2⟩

/-- Claim C4: after every mutating call (`addItem` with a valid id,
`removeItem` on a present id, `clearCart`), each subscribed observer is
invoked exactly once, synchronously, in subscription order, with the one
`cartData` snapshot (`{ items: copy, totalQuantity, totalPrice }`)
computed at notify time from the post-mutation state — the invocation
trace is literally the observer list mapped over that snapshot; a
throwing observer is caught per-invocation, so every observer (including
later-subscribed ones) still receives the same snapshot, and the call's
return value and resulting state are independent of the observers — no
observer error reaches the caller. -/
theorem notification_semantics (env : Env) (c : Cart) :
    (∀ id price, id ≠ "" →
      invocations (addItem env c id price).2.2 =
        env.observers.map fun ob =>
          (ob.1, snapshot (addItem env c id price).2.1,
            ob.2 (snapshot (addItem env c id price).2.1))) ∧
    (∀ id it, getEntry c.items id = some it → id ≠ "" →
      invocations (removeItem env c id).2.2 =
        env.observers.map fun ob =>
          (ob.1, snapshot (removeItem env c id).2.1,
            ob.2 (snapshot (removeItem env c id).2.1))) ∧
    (invocations (clearCart env c).2 =
      env.observers.map fun ob =>
        (ob.1, snapshot (clearCart env c).1, ob.2 (snapshot (clearCart env c).1))) ∧
    (∀ env' id price, (addItem env' c id price).1 = (addItem env c id price).1 ∧
      (addItem env' c id price).2.1 = (addItem env c id price).2.1) ∧
    (∀ env' id, (removeItem env' c id).1 = (removeItem env c id).1 ∧
      (removeItem env' c id).2.1 = (removeItem env c id).2.1) ∧
    (∀ env' : Env, (clearCart env' c).1 = (clearCart env c).1) := by
  refine ⟨fun id price hid => ?_, fun id it hpres hid => ?_, ?_,
    fun env' id price => addItem_env_independent env env' c id price,
    fun env' id => removeItem_env_independent env env' c id,
    fun env' => rfl⟩
  · rw [addItem_events env c price hid]
    exact invocations_op_events env _
  · rw [removeItem_events env c hid hpres]
    exact invocations_op_events env _
  · exact invocations_op_events env _

/-- Witness for C4: one `addItem` on a cart with two observers, the first
of which throws, still invokes both, in order, with the same snapshot. -/
theorem notification_semantics_witness :
    ("v1" : String) ≠ "" ∧
    invocations (addItem envTwo ⟨[]⟩ "v1" 10).2.2 =
      [(0, snapshot (addItem envTwo ⟨[]⟩ "v1" 10).2.1, true),
        (1, snapshot (addItem envTwo ⟨[]⟩ "v1" 10).2.1, false)] := by
  refine ⟨by decide, ?_⟩
  rw [(notification_semantics envTwo ⟨[]⟩).1 "v1" 10 (by decide)]
  rfl

/-- Claim C5: storage failures never cross the public API boundary.
Whatever `sessionStorage` yields at construction — a throwing read, an
absent key, or stored text that fails to parse — the store starts with an
empty state rather than failing fatally; and for every mutating call a
failing `setItem` is caught internally: the return value, the resulting
in-memory state and the observer invocations are identical to those of a
run whose save succeeds (no rollback, notification still happens). -/
theorem storage_failures_contained :
    ((mkCart .readThrew).items = [] ∧ (mkCart .absent).items = [] ∧
      (mkCart .parseThrew).items = []) ∧
    (∀ (sav : Bool) (obs : List (Nat × (Snapshot → Bool))) (c : Cart) (id : String)
        (price : Int),
      (addItem ⟨false, obs⟩ c id price).1 = (addItem ⟨sav, obs⟩ c id price).1 ∧
      (addItem ⟨false, obs⟩ c id price).2.1 = (addItem ⟨sav, obs⟩ c id price).2.1 ∧
      invocations (addItem ⟨false, obs⟩ c id price).2.2 =
        invocations (addItem ⟨sav, obs⟩ c id price).2.2) ∧
    (∀ (sav : Bool) (obs : List (Nat × (Snapshot → Bool))) (c : Cart) (id : String),
      (removeItem ⟨false, obs⟩ c id).1 = (removeItem ⟨sav, obs⟩ c id).1 ∧
      (removeItem ⟨false, obs⟩ c id).2.1 = (removeItem ⟨sav, obs⟩ c id).2.1 ∧
      invocations (removeItem ⟨false, obs⟩ c id).2.2 =
        invocations (removeItem ⟨sav, obs⟩ c id).2.2) ∧
    (∀ (sav : Bool) (obs : List (Nat × (Snapshot → Bool))) (c : Cart),
      (clearCart ⟨false, obs⟩ c).1 = (clearCart ⟨sav, obs⟩ c).1 ∧
      invocations (clearCart ⟨false, obs⟩ c).2 =
        invocations (clearCart ⟨sav, obs⟩ c).2) := by
  refine ⟨⟨rfl, rfl, rfl⟩, fun sav obs c id price => ?_, fun sav obs c id => ?_,
    fun sav obs c => ⟨rfl, rfl⟩⟩
  · refine ⟨(addItem_env_independent ⟨sav, obs⟩ ⟨false, obs⟩ c id price).1,
      (addItem_env_independent ⟨sav, obs⟩ ⟨false, obs⟩ c id price).2, ?_⟩
    by_cases hid : id = ""
    · simp [addItem, hid, invocations]
    · rw [addItem_events ⟨false, obs⟩ c price hid, addItem_events ⟨sav, obs⟩ c price hid,
        invocations_op_events, invocations_op_events,
        (addItem_env_independent ⟨sav, obs⟩ ⟨false, obs⟩ c id price).2]
  · refine ⟨(removeItem_env_independent ⟨sav, obs⟩ ⟨false, obs⟩ c id).1,
      (removeItem_env_independent ⟨sav, obs⟩ ⟨false, obs⟩ c id).2, ?_⟩
    by_cases hid : id = ""
    · simp [removeItem, hid, invocations]
    · cases h : getEntry c.items id with
      | none =>
        rw [removeItem_absent ⟨false, obs⟩ c h, removeItem_absent ⟨sav, obs⟩ c h]
      | some it =>
        rw [removeItem_events ⟨false, obs⟩ c hid h, removeItem_events ⟨sav, obs⟩ c hid h,
          invocations_op_events, invocations_op_events,
          (removeItem_env_independent ⟨sav, obs⟩ ⟨false, obs⟩ c id).2]

/-- Witness for the amended C7 at the concrete heap `{0 ↦ {1, 5}}` and
store `{v1 ↦ ref 0}`. -/
theorem getAllItems_shallow_copy_amended_witness :
    (([("v1", 0)] : List (String × Nat)).map Prod.fst).Nodup ∧
    getEntry (([("v1", 0)] : List (String × Nat))) "v1" = some 0 ∧
    getEntry ([(0, (⟨1, 5⟩ : LineItem))] : Heap) 0 = some ⟨1, 5⟩ ∧
    getItemQuantityRef (heapSet [(0, ⟨1, 5⟩)] 0 ⟨99, 5⟩) ⟨[("v1", 0)]⟩ "v1" =
      LineItem.quantity ⟨99, 5⟩ :=
  ⟨by decide, by decide, by decide,
    (getAllItems_shallow_copy_amended [(0, ⟨1, 5⟩)] ⟨[("v1", 0)]⟩ "v1" (by decide)).2
      0 ⟨99, 5⟩ ⟨1, 5⟩ (by decide) (by decide)⟩

end Kanom
